import Mathlib

/-!
Shallow embedding of the local cache subsystem of `cargo-supply-chain`
(src/crates_cache.rs), together with proofs about its behaviour.

Modelling conventions:
* `std::time::SystemTime` / `Duration` are modelled as whole seconds (`Nat`);
  `SystemTime::elapsed` fails exactly when the stored timestamp lies in the
  future, which the model mirrors.
* `HashMap` is modelled as an association list (`List (K × V)`): `lget` finds
  the first binding, `lput` replaces an existing binding in place or appends.
* The cache directory's contents are an association list from file name to
  `FileNode`; opening a missing file yields a `NotFound` I/O error, a `denied`
  node yields a permission error at `File::open` time.
* `serde_json::from_reader(..).unwrap()` on undecodable content is a panic,
  modelled by the dedicated `panicked` outcomes below.
* `Path::with_extension("part")` replaces the extension after the final dot
  (`"crates.json"` becomes `"crates.part"`), modelled by `partName`.
-/

set_option autoImplicit false

namespace SupplyChain

/-! ### Record schema (structs of src/crates_cache.rs and src/publishers.rs) -/

structure MetadataStored where
  timestamp : Nat
  etag : Option String
deriving DecidableEq, Repr

/-- The dump's own `metadata.json` payload (struct `Metadata`): timestamp only. -/
structure Metadata where
  timestamp : Nat
deriving DecidableEq, Repr

structure Crate where
  name : String
  id : Nat
  repository : Option String
deriving DecidableEq, Repr

structure CrateOwner where
  crate_id : Nat
  owner_id : Nat
  owner_kind : Int
deriving DecidableEq, Repr

structure Publisher where
  crate_id : Nat
  published_by : Nat
deriving DecidableEq, Repr

structure Team where
  id : Nat
  avatar : Option String
  login : String
  name : Option String
deriving DecidableEq, Repr

structure User where
  id : Nat
  gh_avatar : Option String
  gh_id : Option String
  gh_login : String
  name : Option String
deriving DecidableEq, Repr

inductive PublisherKind where
  | team
  | user
deriving DecidableEq, Repr

/-- `PublisherData` as constructed by the cache lookup path. -/
structure PublisherData where
  id : Nat
  avatar : Option String
  url : Option String
  login : String
  name : Option String
  kind : PublisherKind
deriving DecidableEq, Repr

inductive CacheState where
  | Fresh
  | Expired
  | Unknown
deriving DecidableEq, Repr

inductive DownloadState where
  | Fresh
  | Expired
  | Stale
deriving DecidableEq, Repr

inductive IoErr where
  | notFound
  | alreadyExists
  | permissionDenied
  | other
deriving DecidableEq, Repr

/-! ### Association-list model of `HashMap` -/

def lget {K V : Type} [DecidableEq K] (m : List (K × V)) (k : K) : Option V :=
  match m with
  | [] => none
  | (k', v) :: rest => if k' = k then some v else lget rest k

def lput {K V : Type} [DecidableEq K] (m : List (K × V)) (k : K) (v : V) :
    List (K × V) :=
  match m with
  | [] => [(k, v)]
  | (k', v') :: rest =>
      if k' = k then (k', v) :: rest else (k', v') :: lput rest k v

/-- `entries.iter().map(|e| (key(e), e)).collect::<HashMap<_,_>>()`:
later entries with an equal key overwrite earlier ones. -/
def buildMap {K V : Type} [DecidableEq K] (key : V → K) (entries : List V) :
    List (K × V) :=
  entries.foldl (fun m e => lput m (key e) e) []

/-- `store_multi_map`'s grouping fold: push each entry onto its key's vector. -/
def buildMultiMap {K V : Type} [DecidableEq K] (key : V → K)
    (entries : List V) : List (K × List V) :=
  entries.foldl (fun m e => lput m (key e) ((lget m (key e)).getD [] ++ [e])) []

/-! ### On-disk cache model -/

inductive FileData where
  | metaFile (m : MetadataStored)
  | cratesFile (m : List (String × Crate))
  | ownersFile (m : List (Nat × List CrateOwner))
  | usersFile (m : List (Nat × User))
  | teamsFile (m : List (Nat × Team))
  | junk (n : Nat)
deriving DecidableEq, Repr

inductive FileNode where
  | denied
  | data (d : FileData)
deriving DecidableEq, Repr

/-- The cache directory's flat contents: file name to node. -/
abbrev FSt := List (String × FileNode)

def fsGet (fs : FSt) (name : String) : Option FileNode := lget fs name

def fsSet (fs : FSt) (name : String) (node : FileNode) : FSt := lput fs name node

def fsDel (fs : FSt) (name : String) : FSt :=
  match fs with
  | [] => []
  | (k, v) :: rest => if k = name then rest else (k, v) :: fsDel rest name

/-- `fs::rename(src, dst)`: fails (`none`) when the source does not exist. -/
def fsRename (fs : FSt) (src dst : String) : Option FSt :=
  match fsGet fs src with
  | none => none
  | some node => some (fsSet (fsDel fs src) dst node)

/-! ### File names (`CratesCache` constants) and `Path::with_extension` -/

def METADATA_FS : String := "metadata.json"

def CRATES_FS : String := "crates.json"

def CRATE_OWNERS_FS : String := "crate_owners.json"

def USERS_FS : String := "users.json"

def TEAMS_FS : String := "teams.json"

def dropExtChars (l : List Char) : List Char :=
  match l.reverse.dropWhile (fun c => c ≠ '.') with
  | [] => l
  | _ :: rest => rest.reverse

/-- `dir.join(file).with_extension("part")` on a plain file name:
the extension after the final dot is replaced by `part`. -/
def partName (s : String) : String :=
  String.mk (dropExtChars s.data ++ '.' :: 'p' :: 'a' :: 'r' :: 't' :: [])

/-! ### `CacheDir::load_cached` -/

inductive LoadRes (T : Type) where
  | ok (t : T)
  | err (e : IoErr)
  | panicked
deriving DecidableEq

/-- `CacheDir::load_cached::<T>`, for a concrete decoder of `T` out of a
`FileData` node.  A memoized value is returned as is; otherwise the file is
opened (propagating the I/O error), fully deserialized — `.unwrap()` panics
if the contents do not decode — and memoized. -/
def load_cached {T : Type} (decode : FileData → Option T) (fs : FSt)
    (cache : Option T) (file : String) : LoadRes T × Option T :=
  match cache with
  | some datum => (.ok datum, some datum)
  | none =>
      match fsGet fs file with
      | none => (.err .notFound, none)
      | some .denied => (.err .permissionDenied, none)
      | some (.data d) =>
          match decode d with
          | none => (.panicked, none)
          | some t => (.ok t, some t)

def decodeMeta : FileData → Option MetadataStored
  | .metaFile m => some m
  | _ => none

def decodeCrates : FileData → Option (List (String × Crate))
  | .cratesFile m => some m
  | _ => none

def decodeOwners : FileData → Option (List (Nat × List CrateOwner))
  | .ownersFile m => some m
  | _ => none

def decodeUsers : FileData → Option (List (Nat × User))
  | .usersFile m => some m
  | _ => none

def decodeTeams : FileData → Option (List (Nat × Team))
  | .teamsFile m => some m
  | _ => none

/-! ### The `CratesCache` aggregate and its lazy loaders -/

/-- The `CratesCache` struct.  `cache_dir : Option CacheDir` keeps only the
directory path; the directory's contents are passed separately as `FSt`. -/
structure CratesCache where
  cache_dir : Option String
  metadata : Option MetadataStored
  crates : Option (List (String × Crate))
  crate_owners : Option (List (Nat × List CrateOwner))
  users : Option (List (Nat × User))
  teams : Option (List (Nat × Team))
  versions : Option (List ((Nat × String) × Publisher))
deriving DecidableEq, Repr

/-- A computation that either returns or panics (an `unwrap` failure). -/
inductive POr (α : Type) where
  | ok (a : α)
  | panicked
deriving DecidableEq

/-- `self.cache_dir.as_ref()?.load_cached(&mut self.metadata, METADATA_FS).ok()`;
a panic inside `load_cached` propagates. -/
def CratesCache.load_metadata (c : CratesCache) (fs : FSt) :
    POr (Option MetadataStored × CratesCache) :=
  match c.cache_dir with
  | none => .ok (none, c)
  | some _ =>
      match load_cached decodeMeta fs c.metadata METADATA_FS with
      | (.ok m, memo) => .ok (some m, { c with metadata := memo })
      | (.err _, memo) => .ok (none, { c with metadata := memo })
      | (.panicked, _) => .panicked

def CratesCache.load_crates (c : CratesCache) (fs : FSt) :
    POr (Option (List (String × Crate)) × CratesCache) :=
  match c.cache_dir with
  | none => .ok (none, c)
  | some _ =>
      match load_cached decodeCrates fs c.crates CRATES_FS with
      | (.ok m, memo) => .ok (some m, { c with crates := memo })
      | (.err _, memo) => .ok (none, { c with crates := memo })
      | (.panicked, _) => .panicked

def CratesCache.load_crate_owners (c : CratesCache) (fs : FSt) :
    POr (Option (List (Nat × List CrateOwner)) × CratesCache) :=
  match c.cache_dir with
  | none => .ok (none, c)
  | some _ =>
      match load_cached decodeOwners fs c.crate_owners CRATE_OWNERS_FS with
      | (.ok m, memo) => .ok (some m, { c with crate_owners := memo })
      | (.err _, memo) => .ok (none, { c with crate_owners := memo })
      | (.panicked, _) => .panicked

def CratesCache.load_users (c : CratesCache) (fs : FSt) :
    POr (Option (List (Nat × User)) × CratesCache) :=
  match c.cache_dir with
  | none => .ok (none, c)
  | some _ =>
      match load_cached decodeUsers fs c.users USERS_FS with
      | (.ok m, memo) => .ok (some m, { c with users := memo })
      | (.err _, memo) => .ok (none, { c with users := memo })
      | (.panicked, _) => .panicked

def CratesCache.load_teams (c : CratesCache) (fs : FSt) :
    POr (Option (List (Nat × Team)) × CratesCache) :=
  match c.cache_dir with
  | none => .ok (none, c)
  | some _ =>
      match load_cached decodeTeams fs c.teams TEAMS_FS with
      | (.ok m, memo) => .ok (some m, { c with teams := memo })
      | (.err _, memo) => .ok (none, { c with teams := memo })
      | (.panicked, _) => .panicked

/-! ### Freshness policy (`MetadataStored::validate`, `age`, `expire`) -/

/-- `SystemTime::elapsed`: errors when the timestamp lies in the future. -/
def MetadataStored.age (m : MetadataStored) (now : Nat) : Except Unit Nat :=
  if m.timestamp ≤ now then .ok (now - m.timestamp) else .error ()

/-- `MetadataStored::validate`: `Some(duration < max_age)` when the age is
computable, `None` on a `SystemTimeError`. -/
def MetadataStored.validate (m : MetadataStored) (now maxAge : Nat) :
    Option Bool :=
  match m.age now with
  | .ok duration => some (decide (duration < maxAge))
  | .error _ => none

/-- `CratesCache::validate`. -/
def CratesCache.validate (c : CratesCache) (fs : FSt) (now maxAge : Nat) :
    POr (Option Bool × CratesCache) :=
  match c.load_metadata fs with
  | .panicked => .panicked
  | .ok (none, c') => .ok (none, c')
  | .ok (some meta, c') => .ok (meta.validate now maxAge, c')

/-- `CratesCache::expire`: classifies freshness and, on any non-`Fresh`
verdict, drops the directory handle (`self.cache_dir = None`). -/
def CratesCache.expire (c : CratesCache) (fs : FSt) (now maxAge : Nat) :
    POr (CacheState × CratesCache) :=
  match c.validate fs now maxAge with
  | .panicked => .panicked
  | .ok (some true, c') => .ok (.Fresh, c')
  | .ok (none, c') => .ok (.Unknown, { c' with cache_dir := none })
  | .ok (some false, c') => .ok (.Expired, { c' with cache_dir := none })

/-- `CratesCache::age`. -/
def CratesCache.age (c : CratesCache) (fs : FSt) (now : Nat) :
    POr (Option Nat × CratesCache) :=
  match c.load_metadata fs with
  | .panicked => .panicked
  | .ok (none, c') => .ok (none, c')
  | .ok (some meta, c') =>
      .ok ((meta.age now).toOption, c')

/-! ### Lookup engine (`publisher_users`, `publisher_teams`) -/

def userDescriptor (u : User) : PublisherData :=
  { id := u.id
    avatar := u.gh_avatar
    url := none
    login := u.gh_login
    name := u.name
    kind := .user }

def teamDescriptor (t : Team) : PublisherData :=
  { id := t.id
    avatar := t.avatar
    url := none
    login := t.login
    name := t.name
    kind := .team }

/-- The `filter`/`filter_map` pipeline of `publisher_users`: keep edges of
owner kind `0`, look each owner id up among the users, and silently drop
edges whose account is missing. -/
def publisherUsersOfOwners (users : List (Nat × User))
    (owners : List CrateOwner) : List PublisherData :=
  (owners.filter (fun owner => owner.owner_kind = 0)).filterMap
    (fun owner => (lget users owner.owner_id).map userDescriptor)

/-- The `filter`/`filter_map` pipeline of `publisher_teams`: owner kind `1`,
looked up among the teams. -/
def publisherTeamsOfOwners (teams : List (Nat × Team))
    (owners : List CrateOwner) : List PublisherData :=
  (owners.filter (fun owner => owner.owner_kind = 1)).filterMap
    (fun owner => (lget teams owner.owner_id).map teamDescriptor)

/-- `CratesCache::publisher_users`.  Each `?` of the source is an explicit
`none` short-circuit; the state after the last completed lazy load is kept. -/
def CratesCache.publisher_users (c : CratesCache) (fs : FSt)
    (crate_name : String) : POr (Option (List PublisherData) × CratesCache) :=
  match c.load_crates fs with
  | .panicked => .panicked
  | .ok (none, c1) => .ok (none, c1)
  | .ok (some crates, c1) =>
      match lget crates crate_name with
      | none => .ok (none, c1)
      | some crate_ =>
          match c1.load_crate_owners fs with
          | .panicked => .panicked
          | .ok (none, c2) => .ok (none, c2)
          | .ok (some ownersMap, c2) =>
              match lget ownersMap crate_.id with
              | none => .ok (none, c2)
              | some owners =>
                  match c2.load_users fs with
                  | .panicked => .panicked
                  | .ok (none, c3) => .ok (none, c3)
                  | .ok (some users, c3) =>
                      .ok (some (publisherUsersOfOwners users owners), c3)

/-- `CratesCache::publisher_teams`. -/
def CratesCache.publisher_teams (c : CratesCache) (fs : FSt)
    (crate_name : String) : POr (Option (List PublisherData) × CratesCache) :=
  match c.load_crates fs with
  | .panicked => .panicked
  | .ok (none, c1) => .ok (none, c1)
  | .ok (some crates, c1) =>
      match lget crates crate_name with
      | none => .ok (none, c1)
      | some crate_ =>
          match c1.load_crate_owners fs with
          | .panicked => .panicked
          | .ok (none, c2) => .ok (none, c2)
          | .ok (some ownersMap, c2) =>
              match lget ownersMap crate_.id with
              | none => .ok (none, c2)
              | some owners =>
                  match c2.load_teams fs with
                  | .panicked => .panicked
                  | .ok (none, c3) => .ok (none, c3)
                  | .ok (some teams, c3) =>
                      .ok (some (publisherTeamsOfOwners teams owners), c3)

/-! ### `CacheUpdater`: staged writes and the two-phase commit -/

inductive DirState where
  | absent
  | isDir
  | notDir
deriving DecidableEq, Repr

/-- `CacheUpdater::new`: create the cache directory when missing; refuse with
`AlreadyExists` (and leave the entry untouched) when the path exists but is
not a directory. -/
def cacheUpdaterNew : DirState → Except IoErr DirState
  | .absent => .ok .isDir
  | .isDir => .ok .isDir
  | .notDir => .error .alreadyExists

/-- Lexicographic order on the characters of a string (the `Ord` a
`BTreeSet<String>` sorts by; all names involved are ASCII). -/
def charListLt : List Char → List Char → Bool
  | [], [] => false
  | [], _ :: _ => true
  | _ :: _, [] => false
  | a :: as, b :: bs =>
      if a.toNat < b.toNat then true
      else if b.toNat < a.toNat then false
      else charListLt as bs

def strLt (a b : String) : Bool := charListLt a.data b.data

/-- Insertion into a `BTreeSet<String>`: kept sorted, without duplicates. -/
def insertSorted (s : String) : List String → List String
  | [] => [s]
  | x :: xs =>
      if strLt s x then s :: x :: xs
      else if s = x then x :: xs
      else x :: insertSorted s xs

/-- The order in which `commit()` performs its renames: every staged file
except the metadata file first (the set's iteration order), the metadata
file last when staged — `uncommitted_files.take(METADATA_FS)`. -/
def commitRenames (staged : List String) : List String :=
  staged.erase METADATA_FS ++ (if METADATA_FS ∈ staged then [METADATA_FS] else [])

/-- Perform `fs::rename(name.with_extension("part"), name)` for each name in
order, stopping at the first failure.  `failP` injects a failing rename (the
spec's simulated interruption); a missing source also fails. -/
def runRenames (failP : String → Bool) : FSt → List String → FSt × Option IoErr
  | fs, [] => (fs, none)
  | fs, f :: rest =>
      if failP f then (fs, some .other)
      else
        match fsRename fs (partName f) f with
        | none => (fs, some .notFound)
        | some fs' => runRenames failP fs' rest

/-- `CacheUpdater::commit`. -/
def commit (failP : String → Bool) (fs : FSt) (staged : List String) :
    FSt × Option IoErr :=
  runRenames failP fs (commitRenames staged)

/-- The metadata record a later freshness check would read from disk. -/
def metadataOnDisk (fs : FSt) : Option MetadataStored :=
  match fsGet fs METADATA_FS with
  | some (.data (.metaFile m)) => some m
  | _ => none

/-! ### Archive ingestor (`CratesCache::download`) -/

/-- A fallible value (`Result<T, E>` with the error mapped to `IoErr`). -/
inductive Res (α : Type) where
  | ok (a : α)
  | err (e : IoErr)
deriving DecidableEq

/-- One tar entry: its path bytes, and the outcome of deserializing its body
as each record list the router could ask for (`read_csv_data` /
`serde_json::from_reader`). -/
structure Entry where
  pathBytes : String
  asOwners : Res (List CrateOwner)
  asCrates : Res (List Crate)
  asUsers : Res (List User)
  asTeams : Res (List Team)
  asMeta : Res Metadata
deriving DecidableEq

/-- The HTTP response: status, `etag` header, `content-length` header, and
the decompressed archive's entry stream (`Err` items are skipped by the
loop's `if let Ok(entry)`). -/
structure Response where
  status : Nat
  etag : Option String
  contentLength : Option Nat
  entries : List (Res Entry)
deriving DecidableEq

/-- Externally observable effects of `download`, in order. -/
inductive Ev where
  | httpGet (cond : Option String)
  | ensureDir
  | wrotePart (name : String)
deriving DecidableEq, Repr

/-- `path.ends_with(suffix)` on path bytes. -/
def pathEndsWith (p suffix : String) : Bool :=
  suffix.data.isSuffixOf p.data

/-- The `required_files` set (`BTreeSet::from_iter`, hence sorted). -/
def requiredFiles : List String :=
  [CRATE_OWNERS_FS, CRATES_FS, METADATA_FS, TEAMS_FS, USERS_FS]

/-- `BTreeSet::is_subset`. -/
def subsetOf (a b : List String) : Bool :=
  a.all (fun x => x ∈ b)

/-- Loop state of the entry loop: the aggregate's memo fields, the directory
contents, the updater's staged-name set, and the event trace so far. -/
structure LoopSt where
  c : CratesCache
  fs : FSt
  staged : List String
  trace : List Ev
deriving DecidableEq

/-- `CacheUpdater::store`'s file-system half: write the staged `.part`
sibling and record the name as staged. -/
def stagePart (ls : LoopSt) (file : String) (d : FileData) : LoopSt :=
  { ls with
      staged := insertSorted file ls.staged
      fs := fsSet ls.fs (partName file) (.data d)
      trace := ls.trace ++ [.wrotePart (partName file)] }

/-- The conditional-fetch header: the remembered validator is attached only
when the metadata is present and still fresh. -/
def condHeader (mm : Option MetadataStored) (now maxAge : Nat) :
    Option String :=
  match mm with
  | some meta =>
      if meta.validate now maxAge = some true then meta.etag else none
  | none => none

/-- The entry loop of `download`: route each entry by path suffix to its
handler (`store_multi_map` / `store_map` / `store`), or — for an entry that
matches no handler — stop early when every required file has been staged.
Returns the state, the error that aborted the loop if any, and the entries
never consumed from the stream. -/
def processEntries (etag : Option String) :
    LoopSt → List (Res Entry) → LoopSt × Option IoErr × List (Res Entry)
  | ls, [] => (ls, none, [])
  | ls, item :: rest =>
      match item with
      | .err _ => processEntries etag ls rest
      | .ok entry =>
          if pathEndsWith entry.pathBytes "crate_owners.csv" then
            match entry.asOwners with
            | .err e => (ls, some e, rest)
            | .ok owners =>
                let ls' := stagePart
                  { ls with c := { ls.c with
                      crate_owners :=
                        some (buildMultiMap (fun o => o.crate_id) owners) } }
                  CRATE_OWNERS_FS
                  (.ownersFile (buildMultiMap (fun o => o.crate_id) owners))
                processEntries etag ls' rest
          else if pathEndsWith entry.pathBytes "crates.csv" then
            match entry.asCrates with
            | .err e => (ls, some e, rest)
            | .ok crates =>
                let ls' := stagePart
                  { ls with c := { ls.c with
                      crates := some (buildMap (fun cr => cr.name) crates) } }
                  CRATES_FS
                  (.cratesFile (buildMap (fun cr => cr.name) crates))
                processEntries etag ls' rest
          else if pathEndsWith entry.pathBytes "users.csv" then
            match entry.asUsers with
            | .err e => (ls, some e, rest)
            | .ok users =>
                let ls' := stagePart
                  { ls with c := { ls.c with
                      users := some (buildMap (fun u => u.id) users) } }
                  USERS_FS
                  (.usersFile (buildMap (fun u => u.id) users))
                processEntries etag ls' rest
          else if pathEndsWith entry.pathBytes "teams.csv" then
            match entry.asTeams with
            | .err e => (ls, some e, rest)
            | .ok teams =>
                let ls' := stagePart
                  { ls with c := { ls.c with
                      teams := some (buildMap (fun t => t.id) teams) } }
                  TEAMS_FS
                  (.teamsFile (buildMap (fun t => t.id) teams))
                processEntries etag ls' rest
          else if pathEndsWith entry.pathBytes "metadata.json" then
            match entry.asMeta with
            | .err e => (ls, some e, rest)
            | .ok meta =>
                let stored : MetadataStored :=
                  { timestamp := meta.timestamp, etag := etag }
                let ls' := stagePart
                  { ls with c := { ls.c with metadata := some stored } }
                  METADATA_FS (.metaFile stored)
                processEntries etag ls' rest
          else
            if subsetOf requiredFiles ls.staged then (ls, none, rest)
            else processEntries etag ls rest

/-- The environment `download` runs against: whether the platform cache
directory can be resolved, the outcome of `request.call()`, and the injected
rename fault used to interrupt `commit()`. -/
structure DlEnv where
  projectDirsAvailable : Bool
  callResult : Res Response
  renameFailP : String → Bool

/-- What `download` left behind. -/
structure DlOut where
  res : LoadRes DownloadState
  cache : CratesCache
  fs : FSt
  dir : DirState
  trace : List Ev

/-- The tail of `download` after the entry loop: `commit()` the staged
files, then classify — `Stale` when the remembered validator equals the
response's, `Expired` otherwise. -/
def downloadFinish (remembered etag : Option String) (failP : String → Bool)
    (dir' : DirState) (p : LoopSt × Option IoErr × List (Res Entry)) :
    DlOut :=
  match p with
  | (ls1, some e, _) =>
      { res := .err e, cache := ls1.c, fs := ls1.fs, dir := dir',
        trace := ls1.trace }
  | (ls1, none, _) =>
      match commit failP ls1.fs ls1.staged with
      | (fs2, some e) =>
          { res := .err e, cache := ls1.c, fs := fs2, dir := dir',
            trace := ls1.trace }
      | (fs2, none) =>
          { res := .ok (if remembered = etag then .Stale else .Expired),
            cache := ls1.c, fs := fs2, dir := dir', trace := ls1.trace }

/-- `CratesCache::download`.  Progress-bar manipulation is omitted; every
other step is kept in source order: load the remembered metadata (a panic
propagates), issue the conditional GET, short-circuit on `304`, resolve and
ensure the cache directory, run the entry loop, commit, and classify the
outcome by comparing validator tokens. -/
def CratesCache.download (c : CratesCache) (fs : FSt) (dir : DirState)
    (env : DlEnv) (now maxAge : Nat) : DlOut :=
  match c.load_metadata fs with
  | .panicked =>
      { res := .panicked, cache := c, fs := fs, dir := dir, trace := [] }
  | .ok (mm, c1) =>
      let remembered_etag : Option String :=
        match mm with
        | some meta => meta.etag
        | none => none
      let trace1 : List Ev := [.httpGet (condHeader mm now maxAge)]
      match env.callResult with
      | .err _ =>
          { res := .err .other, cache := c1, fs := fs, dir := dir,
            trace := trace1 }
      | .ok response =>
          if response.status = 304 then
            { res := .ok .Fresh, cache := c1, fs := fs, dir := dir,
              trace := trace1 }
          else
            let etag := response.etag
            if env.projectDirsAvailable = false then
              { res := .err .notFound, cache := c1, fs := fs, dir := dir,
                trace := trace1 }
            else
              match cacheUpdaterNew dir with
              | .error e =>
                  { res := .err e, cache := c1, fs := fs, dir := dir,
                    trace := trace1 }
              | .ok dir' =>
                  let trace2 := trace1 ++ [Ev.ensureDir]
                  let ls0 : LoopSt :=
                    { c := c1, fs := fs, staged := [], trace := trace2 }
                  downloadFinish remembered_etag etag env.renameFailP dir'
                    (processEntries etag ls0 response.entries)

/-! ### Small observers used by the theorems -/

def loadResIsOk {T : Type} : LoadRes T → Bool
  | .ok _ => true
  | _ => false

def loadResIsErr {T : Type} : LoadRes T → Bool
  | .err _ => true
  | _ => false

def evIsWrotePart : Ev → Bool
  | .wrotePart _ => true
  | _ => false

/-- Whether an entry's path matches one of the five handled suffixes. -/
def routedEntry (entry : Entry) : Bool :=
  pathEndsWith entry.pathBytes "crate_owners.csv"
  || pathEndsWith entry.pathBytes "crates.csv"
  || pathEndsWith entry.pathBytes "users.csv"
  || pathEndsWith entry.pathBytes "teams.csv"
  || pathEndsWith entry.pathBytes "metadata.json"

/-- The validator token remembered from the previously stored metadata. -/
def rememberedOf (mm : Option MetadataStored) : Option String :=
  match mm with
  | some meta => meta.etag
  | none => none

/-! ### Concrete fixtures for witnesses and counterexamples -/

def emptyCache : CratesCache :=
  { cache_dir := none, metadata := none, crates := none, crate_owners := none,
    users := none, teams := none, versions := none }

def crateA : Crate := { name := "a", id := 1, repository := none }

def userTen : User :=
  { id := 10, gh_avatar := none, gh_id := none, gh_login := "alice",
    name := none }

/-- A cache that knows package `"a"` but has no ownership edges at all for
it (its id is absent from the ownership multimap). -/
def cacheKnownNoEdges : CratesCache :=
  { cache_dir := some "d", metadata := none,
    crates := some [("a", crateA)], crate_owners := some [],
    users := some [], teams := some [], versions := none }

/-- A cache with package `"a"` having two kind-0 edges: one to the known
user `10`, one to the absent owner id `99`. -/
def cacheDangling : CratesCache :=
  { cache_dir := some "d", metadata := none,
    crates := some [("a", crateA)],
    crate_owners := some
      [(1, [{ crate_id := 1, owner_id := 10, owner_kind := 0 },
            { crate_id := 1, owner_id := 99, owner_kind := 0 }])],
    users := some [(10, userTen)], teams := some [], versions := none }

def mkCsvEntry (path : String) (asOwners : Res (List CrateOwner))
    (asCrates : Res (List Crate)) (asUsers : Res (List User))
    (asTeams : Res (List Team)) (asMeta : Res Metadata) : Entry :=
  { pathBytes := path, asOwners := asOwners, asCrates := asCrates,
    asUsers := asUsers, asTeams := asTeams, asMeta := asMeta }

def entryOwners : Entry :=
  mkCsvEntry "data/crate_owners.csv" (.ok []) (.err .other) (.err .other)
    (.err .other) (.err .other)

def entryCrates : Entry :=
  mkCsvEntry "data/crates.csv" (.err .other) (.ok []) (.err .other)
    (.err .other) (.err .other)

def entryUsers : Entry :=
  mkCsvEntry "data/users.csv" (.err .other) (.err .other) (.ok [])
    (.err .other) (.err .other)

def entryTeams : Entry :=
  mkCsvEntry "data/teams.csv" (.err .other) (.err .other) (.err .other)
    (.ok []) (.err .other)

def entryMeta : Entry :=
  mkCsvEntry "data/metadata.json" (.err .other) (.err .other) (.err .other)
    (.err .other) (.ok { timestamp := 5 })

def entryJunk1 : Entry :=
  mkCsvEntry "data/irrelevant_one.bin" (.err .other) (.err .other)
    (.err .other) (.err .other) (.err .other)

def entryJunk2 : Entry :=
  mkCsvEntry "data/irrelevant_two.bin" (.err .other) (.err .other)
    (.err .other) (.err .other) (.err .other)

/-- An archive stream: the five required entries, then irrelevant ones. -/
def streamSevenEntries : List (Res Entry) :=
  [.ok entryOwners, .ok entryCrates, .ok entryUsers, .ok entryTeams,
   .ok entryMeta, .ok entryJunk1, .ok entryJunk2]

def loopStart : LoopSt :=
  { c := emptyCache, fs := [], staged := [], trace := [] }

/-- A loop state in which all five required names are already staged. -/
def loopStagedAll : LoopSt :=
  { c := emptyCache, fs := [], staged := requiredFiles, trace := [] }

/-- Part files for the five staged names, next to an old metadata file. -/
def fsWithParts : FSt :=
  [(partName CRATE_OWNERS_FS, .data (.ownersFile [])),
   (partName CRATES_FS, .data (.cratesFile [])),
   (partName METADATA_FS, .data (.metaFile { timestamp := 9, etag := none })),
   (partName TEAMS_FS, .data (.teamsFile [])),
   (partName USERS_FS, .data (.usersFile [])),
   (METADATA_FS, .data (.metaFile { timestamp := 1, etag := none }))]

/-- The cache of `cacheKnownNoEdges` after its directory handle is dropped. -/
def poisonedCache : CratesCache :=
  { cacheKnownNoEdges with cache_dir := none }

/-- A directory holding metadata that would be fresh at `now = 7`,
`max_age = 9`. -/
def fsFreshMeta : FSt :=
  [(METADATA_FS, .data (.metaFile { timestamp := 7, etag := some "v1" }))]

def resp304 : Response :=
  { status := 304, etag := some "v1", contentLength := none, entries := [] }

def env304 : DlEnv :=
  { projectDirsAvailable := true, callResult := .ok resp304,
    renameFailP := fun _ => false }

def resp200 : Response :=
  { status := 200, etag := some "v2", contentLength := some 100,
    entries := [] }

def env200 : DlEnv :=
  { projectDirsAvailable := true, callResult := .ok resp200,
    renameFailP := fun _ => false }

/-! ### Helper lemmas about the lookup pipelines -/

theorem publisherUsers_drop (users : List (Nat × User)) :
    ∀ owners : List CrateOwner,
    publisherUsersOfOwners users owners
      = publisherUsersOfOwners users
          (owners.filter (fun o => (lget users o.owner_id).isSome)) := by
  intro owners
  induction owners with
  | nil => rfl
  | cons o os ih =>
      unfold publisherUsersOfOwners
      unfold publisherUsersOfOwners at ih
      cases hu : lget users o.owner_id with
      | none =>
          by_cases hk : o.owner_kind = 0 <;>
            simp [List.filter_cons, hk, hu, List.filterMap_cons, ih]
      | some u =>
          by_cases hk : o.owner_kind = 0 <;>
            simp [List.filter_cons, hk, hu, List.filterMap_cons, ih]

theorem publisherTeams_drop (teams : List (Nat × Team)) :
    ∀ owners : List CrateOwner,
    publisherTeamsOfOwners teams owners
      = publisherTeamsOfOwners teams
          (owners.filter (fun o => (lget teams o.owner_id).isSome)) := by
  intro owners
  induction owners with
  | nil => rfl
  | cons o os ih =>
      unfold publisherTeamsOfOwners
      unfold publisherTeamsOfOwners at ih
      cases hu : lget teams o.owner_id with
      | none =>
          by_cases hk : o.owner_kind = 1 <;>
            simp [List.filter_cons, hk, hu, List.filterMap_cons, ih]
      | some t =>
          by_cases hk : o.owner_kind = 1 <;>
            simp [List.filter_cons, hk, hu, List.filterMap_cons, ih]

theorem publisherUsers_kind (users : List (Nat × User))
    (owners : List CrateOwner) :
    ((publisherUsersOfOwners users owners).all
      (fun d => decide (d.kind = PublisherKind.user))) = true := by
  rw [List.all_eq_true]
  intro d hd
  rcases List.mem_filterMap.mp hd with ⟨o, _, hg⟩
  cases hu : lget users o.owner_id with
  | none => rw [hu] at hg; simp at hg
  | some u =>
      rw [hu] at hg
      simp only [Option.map_some'] at hg
      cases hg
      simp [userDescriptor]

theorem publisherTeams_kind (teams : List (Nat × Team))
    (owners : List CrateOwner) :
    ((publisherTeamsOfOwners teams owners).all
      (fun d => decide (d.kind = PublisherKind.team))) = true := by
  rw [List.all_eq_true]
  intro d hd
  rcases List.mem_filterMap.mp hd with ⟨o, _, hg⟩
  cases hu : lget teams o.owner_id with
  | none => rw [hu] at hg; simp at hg
  | some t =>
      rw [hu] at hg
      simp only [Option.map_some'] at hg
      cases hg
      simp [teamDescriptor]

/-! ### C5: strict freshness boundary -/

/-- C5: freshness uses a strict less-than comparison of the cache age
against `max_age`: metadata aged exactly `max_age` is classified not fresh
(`some false`), and metadata aged `max_age - 1` second (that is, against a
maximum one second larger than the age) is classified fresh (`some true`). -/
theorem freshness_boundary_strict (ts now : Nat) (et : Option String)
    (h : ts ≤ now) :
    MetadataStored.validate { timestamp := ts, etag := et } now (now - ts)
        = some false
    ∧ MetadataStored.validate { timestamp := ts, etag := et } now (now - ts + 1)
        = some true := by
  constructor
  · simp [MetadataStored.validate, MetadataStored.age, h]
  · simp [MetadataStored.validate, MetadataStored.age, h]

/-- C5 witness: age 3 against `max_age` 3 is not fresh, against 4 is fresh. -/
theorem freshness_boundary_strict_witness :
    2 ≤ 5
    ∧ (MetadataStored.validate { timestamp := 2, etag := none } 5 (5 - 2)
          = some false
        ∧ MetadataStored.validate { timestamp := 2, etag := none } 5 (5 - 2 + 1)
          = some true) :=
  ⟨by decide, freshness_boundary_strict 2 5 none (by decide)⟩

/-! ### C2: error behaviour of `load_cached` -/

/-- C2 counterexample: on a file whose contents are malformed (fail to
deserialize), `load_cached` does not return an error condition to the
caller — it panics (`serde_json::from_reader(..).unwrap()`). -/
theorem load_cached_malformed_panics_cex :
    (load_cached decodeCrates [(CRATES_FS, FileNode.data (.junk 0))]
        none CRATES_FS).1 = .panicked
    ∧ loadResIsErr (load_cached decodeCrates
        [(CRATES_FS, FileNode.data (.junk 0))] none CRATES_FS).1 = false := by
  decide

/-- C2 amended: with no memoized value, `load_cached` returns a `NotFound`
I/O error when the directory or file is missing, a permission error when the
file cannot be opened, and panics (rather than returning an error) when the
contents are malformed; a successful read deserializes the whole file and
memoizes it (all-or-nothing), and a memoized value short-circuits. -/
theorem load_cached_error_conditions {T : Type}
    (decode : FileData → Option T) (fs : FSt) (file : String)
    (d : FileData) (t : T) :
    (fsGet fs file = none →
        load_cached decode fs none file = (.err .notFound, none))
    ∧ (fsGet fs file = some .denied →
        load_cached decode fs none file = (.err .permissionDenied, none))
    ∧ (fsGet fs file = some (.data d) → decode d = none →
        load_cached decode fs none file = (.panicked, none))
    ∧ (fsGet fs file = some (.data d) → decode d = some t →
        load_cached decode fs none file = (.ok t, some t))
    ∧ load_cached decode fs (some t) file = (.ok t, some t) := by
  refine ⟨?_, ?_, ?_, ?_, ?_⟩
  · intro h; simp [load_cached, h]
  · intro h; simp [load_cached, h]
  · intro h hd; simp [load_cached, h, hd]
  · intro h hd; simp [load_cached, h, hd]
  · rfl

/-- C2 witness: a concrete run of each branch's premise on a one-file
directory holding well-formed metadata. -/
theorem load_cached_error_conditions_witness :
    (fsGet [(METADATA_FS, FileNode.data (.metaFile { timestamp := 3, etag := none }))] METADATA_FS
        = some (.data (.metaFile { timestamp := 3, etag := none })) →
      decodeMeta (.metaFile { timestamp := 3, etag := none })
        = some { timestamp := 3, etag := none } →
      load_cached decodeMeta
          [(METADATA_FS, FileNode.data (.metaFile { timestamp := 3, etag := none }))]
          none METADATA_FS
        = (.ok { timestamp := 3, etag := none },
            some { timestamp := 3, etag := none })) :=
  (load_cached_error_conditions decodeMeta
      [(METADATA_FS, FileNode.data (.metaFile { timestamp := 3, etag := none }))]
      METADATA_FS (.metaFile { timestamp := 3, etag := none })
      { timestamp := 3, etag := none }).2.2.2.1

/-! ### C3: when the lookup returns `None` -/

/-- C3 counterexample: package `"a"` is known to the cache (present in the
crates index), yet — because its id has no entry in the ownership multimap,
i.e. it has zero owners of any kind — `publisher_users` and
`publisher_teams` both return `None` rather than `Some([])`. -/
theorem publisher_users_known_no_edges_none_cex :
    lget [("a", crateA)] "a" = some crateA
    ∧ cacheKnownNoEdges.publisher_users [] "a" = .ok (none, cacheKnownNoEdges)
    ∧ cacheKnownNoEdges.publisher_teams [] "a"
        = .ok (none, cacheKnownNoEdges) := by
  decide

/-- C3 amended: the lookups return `None` when the package is unknown to the
crates index and also when the known package's id has no entry in the
ownership multimap (zero edges of any kind); when the id does have an edge
list, they return `Some` of the pipeline's output, which is the empty list
whenever no edge of the queried kind is present. -/
theorem publisher_lookup_none_cases (c : CratesCache) (fs : FSt)
    (name : String) (crates : List (String × Crate)) (cr : Crate)
    (om : List (Nat × List CrateOwner)) (owners : List CrateOwner)
    (us : List (Nat × User)) (ts : List (Nat × Team))
    (c1 c2 c3 : CratesCache) :
    (c.load_crates fs = .ok (some crates, c1) → lget crates name = none →
        c.publisher_users fs name = .ok (none, c1))
    ∧ (c.load_crates fs = .ok (some crates, c1) → lget crates name = some cr →
        c1.load_crate_owners fs = .ok (some om, c2) → lget om cr.id = none →
        c.publisher_users fs name = .ok (none, c2))
    ∧ (c.load_crates fs = .ok (some crates, c1) → lget crates name = some cr →
        c1.load_crate_owners fs = .ok (some om, c2) →
        lget om cr.id = some owners →
        c2.load_users fs = .ok (some us, c3) →
        c.publisher_users fs name
          = .ok (some (publisherUsersOfOwners us owners), c3))
    ∧ (owners.all (fun o => decide (o.owner_kind ≠ 0)) = true →
        publisherUsersOfOwners us owners = [])
    ∧ (c.load_crates fs = .ok (some crates, c1) → lget crates name = some cr →
        c1.load_crate_owners fs = .ok (some om, c2) → lget om cr.id = none →
        c.publisher_teams fs name = .ok (none, c2))
    ∧ (c.load_crates fs = .ok (some crates, c1) → lget crates name = some cr →
        c1.load_crate_owners fs = .ok (some om, c2) →
        lget om cr.id = some owners →
        c2.load_teams fs = .ok (some ts, c3) →
        c.publisher_teams fs name
          = .ok (some (publisherTeamsOfOwners ts owners), c3))
    ∧ (owners.all (fun o => decide (o.owner_kind ≠ 1)) = true →
        publisherTeamsOfOwners ts owners = []) := by
  refine ⟨?_, ?_, ?_, ?_, ?_, ?_, ?_⟩
  · intro h1 h2; simp [CratesCache.publisher_users, h1, h2]
  · intro h1 h2 h3 h4
    simp [CratesCache.publisher_users, h1, h2, h3, h4]
  · intro h1 h2 h3 h4 h5
    simp [CratesCache.publisher_users, h1, h2, h3, h4, h5]
  · intro h
    unfold publisherUsersOfOwners
    rw [List.filter_eq_nil_iff.mpr, List.filterMap_nil]
    intro o ho
    have := List.all_eq_true.mp h o ho
    simpa using this
  · intro h1 h2 h3 h4
    simp [CratesCache.publisher_teams, h1, h2, h3, h4]
  · intro h1 h2 h3 h4 h5
    simp [CratesCache.publisher_teams, h1, h2, h3, h4, h5]
  · intro h
    unfold publisherTeamsOfOwners
    rw [List.filter_eq_nil_iff.mpr, List.filterMap_nil]
    intro o ho
    have := List.all_eq_true.mp h o ho
    simpa using this

/-- C3 amended witness: the zero-edges package of the counterexample goes
through the second conjunct. -/
theorem publisher_lookup_none_cases_witness :
    (cacheKnownNoEdges.load_crates [] = .ok (some [("a", crateA)], cacheKnownNoEdges) →
      lget [("a", crateA)] "a" = some crateA →
      cacheKnownNoEdges.load_crate_owners [] = .ok (some [], cacheKnownNoEdges) →
      lget ([] : List (Nat × List CrateOwner)) crateA.id = none →
      cacheKnownNoEdges.publisher_users [] "a" = .ok (none, cacheKnownNoEdges)) :=
  (publisher_lookup_none_cases cacheKnownNoEdges [] "a" [("a", crateA)] crateA
    [] [] [] [] cacheKnownNoEdges cacheKnownNoEdges cacheKnownNoEdges).2.1

/-! ### C4: dangling ownership edges are silently dropped -/

/-- C4: an edge whose owner id is absent from the account index contributes
nothing and raises no error: the pipeline's output equals the output on the
edges whose accounts are found, and a package with one kind-0 edge to a
known user and one kind-0 edge to an absent owner id yields exactly the one
descriptor of the known user. -/
theorem publisher_users_drops_dangling_edges (c : CratesCache) (fs : FSt)
    (name : String) (crates : List (String × Crate)) (cr : Crate)
    (om : List (Nat × List CrateOwner)) (us : List (Nat × User))
    (ts : List (Nat × Team)) (owners : List CrateOwner)
    (e1 e2 : CrateOwner) (u : User) (c1 c2 c3 : CratesCache)
    (h1 : c.load_crates fs = .ok (some crates, c1))
    (h2 : lget crates name = some cr)
    (h3 : c1.load_crate_owners fs = .ok (some om, c2))
    (h4 : lget om cr.id = some [e1, e2])
    (h5 : c2.load_users fs = .ok (some us, c3))
    (h6 : e1.owner_kind = 0) (h7 : lget us e1.owner_id = some u)
    (h8 : e2.owner_kind = 0) (h9 : lget us e2.owner_id = none) :
    c.publisher_users fs name = .ok (some [userDescriptor u], c3)
    ∧ publisherUsersOfOwners us owners
        = publisherUsersOfOwners us
            (owners.filter (fun o => (lget us o.owner_id).isSome))
    ∧ publisherTeamsOfOwners ts owners
        = publisherTeamsOfOwners ts
            (owners.filter (fun o => (lget ts o.owner_id).isSome)) := by
  refine ⟨?_, publisherUsers_drop us owners, publisherTeams_drop ts owners⟩
  simp [CratesCache.publisher_users, h1, h2, h3, h4, h5]
  simp [publisherUsersOfOwners, List.filter_cons, List.filterMap_cons,
    h6, h7, h8, h9]

/-- C4 witness: the concrete two-edge cache with a dangling owner id `99`. -/
theorem publisher_users_drops_dangling_edges_witness :
    cacheDangling.publisher_users [] "a"
        = .ok (some [userDescriptor userTen], cacheDangling)
    ∧ publisherUsersOfOwners [(10, userTen)] []
        = publisherUsersOfOwners [(10, userTen)]
            (List.filter (fun o => (lget [(10, userTen)] o.owner_id).isSome) [])
    ∧ publisherTeamsOfOwners [] []
        = publisherTeamsOfOwners []
            (List.filter (fun o => (lget ([] : List (Nat × Team)) o.owner_id).isSome) []) :=
  publisher_users_drops_dangling_edges cacheDangling [] "a" [("a", crateA)]
    crateA [(1, [{ crate_id := 1, owner_id := 10, owner_kind := 0 },
                 { crate_id := 1, owner_id := 99, owner_kind := 0 }])]
    [(10, userTen)] [] []
    { crate_id := 1, owner_id := 10, owner_kind := 0 }
    { crate_id := 1, owner_id := 99, owner_kind := 0 }
    userTen cacheDangling cacheDangling cacheDangling
    (by decide) (by decide) (by decide) (by decide) (by decide)
    (by decide) (by decide) (by decide) (by decide)

/-! ### C10: unrecognized owner-kind discriminants are excluded -/

/-- C10: an ownership edge whose `owner_kind` is neither `0` nor `1` is
silently excluded from both lookup pipelines — inserting such an edge
anywhere in the edge list changes neither output — and no raw discriminant
is surfaced: every produced descriptor carries the closed `user`/`team`
kind of its pipeline. -/
theorem unknown_owner_kind_excluded (us : List (Nat × User))
    (ts : List (Nat × Team)) (es1 es2 : List CrateOwner) (e : CrateOwner)
    (h0 : e.owner_kind ≠ 0) (h1 : e.owner_kind ≠ 1) :
    publisherUsersOfOwners us (es1 ++ e :: es2)
        = publisherUsersOfOwners us (es1 ++ es2)
    ∧ publisherTeamsOfOwners ts (es1 ++ e :: es2)
        = publisherTeamsOfOwners ts (es1 ++ es2)
    ∧ ((publisherUsersOfOwners us (es1 ++ e :: es2)).all
        (fun d => decide (d.kind = PublisherKind.user))) = true
    ∧ ((publisherTeamsOfOwners ts (es1 ++ e :: es2)).all
        (fun d => decide (d.kind = PublisherKind.team))) = true := by
  refine ⟨?_, ?_, publisherUsers_kind us _, publisherTeams_kind ts _⟩
  · unfold publisherUsersOfOwners
    rw [List.filter_append, List.filter_append, List.filter_cons]
    simp [h0]
  · unfold publisherTeamsOfOwners
    rw [List.filter_append, List.filter_append, List.filter_cons]
    simp [h1]

/-- C10 witness: a kind-2 edge in the middle of a one-edge list changes
neither pipeline's output. -/
theorem unknown_owner_kind_excluded_witness :
    publisherUsersOfOwners [(10, userTen)]
        ([{ crate_id := 1, owner_id := 10, owner_kind := 0 }]
          ++ { crate_id := 1, owner_id := 10, owner_kind := 2 } :: [])
      = publisherUsersOfOwners [(10, userTen)]
          ([{ crate_id := 1, owner_id := 10, owner_kind := 0 }] ++ [])
    ∧ publisherTeamsOfOwners []
        ([{ crate_id := 1, owner_id := 10, owner_kind := 0 }]
          ++ { crate_id := 1, owner_id := 10, owner_kind := 2 } :: [])
      = publisherTeamsOfOwners []
          ([{ crate_id := 1, owner_id := 10, owner_kind := 0 }] ++ [])
    ∧ ((publisherUsersOfOwners [(10, userTen)]
        ([{ crate_id := 1, owner_id := 10, owner_kind := 0 }]
          ++ { crate_id := 1, owner_id := 10, owner_kind := 2 } :: [])).all
        (fun d => decide (d.kind = PublisherKind.user))) = true
    ∧ ((publisherTeamsOfOwners []
        ([{ crate_id := 1, owner_id := 10, owner_kind := 0 }]
          ++ { crate_id := 1, owner_id := 10, owner_kind := 2 } :: [])).all
        (fun d => decide (d.kind = PublisherKind.team))) = true :=
  unknown_owner_kind_excluded [(10, userTen)] []
    [{ crate_id := 1, owner_id := 10, owner_kind := 0 }] []
    { crate_id := 1, owner_id := 10, owner_kind := 2 }
    (by decide) (by decide)

/-! ### Helper lemmas for the commit path -/

theorem lget_lput_self {K V : Type} [DecidableEq K] (m : List (K × V))
    (k : K) (v : V) : lget (lput m k v) k = some v := by
  induction m with
  | nil => simp [lput, lget]
  | cons p rest ih =>
      obtain ⟨k', v'⟩ := p
      by_cases h : k' = k <;> simp [lput, lget, h, ih]

theorem lget_lput_ne {K V : Type} [DecidableEq K] (m : List (K × V))
    (k k' : K) (v : V) (h : k' ≠ k) :
    lget (lput m k v) k' = lget m k' := by
  have h' : ¬(k = k') := fun hh => h hh.symm
  induction m with
  | nil => simp [lput, lget, h']
  | cons p rest ih =>
      obtain ⟨k0, v0⟩ := p
      by_cases h0 : k0 = k <;> simp [lput, lget, h0, h', ih]

theorem fsGet_fsSet_self (fs : FSt) (k : String) (v : FileNode) :
    fsGet (fsSet fs k v) k = some v :=
  lget_lput_self fs k v

theorem fsGet_fsSet_ne (fs : FSt) (k k' : String) (v : FileNode)
    (h : k' ≠ k) : fsGet (fsSet fs k v) k' = fsGet fs k' :=
  lget_lput_ne fs k k' v h

theorem fsGet_fsDel_ne (fs : FSt) (k k' : String) (h : k' ≠ k) :
    fsGet (fsDel fs k) k' = fsGet fs k' := by
  have hkk' : ¬(k = k') := fun hh => h hh.symm
  induction fs with
  | nil => rfl
  | cons p rest ih =>
      obtain ⟨k0, v0⟩ := p
      by_cases h0 : k0 = k
      · have h' : ¬(k0 = k') := h0 ▸ hkk'
        simp [fsDel, fsGet, lget, h0, h', hkk']
      · simp only [fsDel, fsGet, lget, if_neg h0]
        by_cases h1 : k0 = k'
        · simp [h1]
        · simp only [if_neg h1]
          exact ih

theorem fsRename_get_other (fs fs' : FSt) (src dst k : String)
    (h : fsRename fs src dst = some fs') (h1 : k ≠ src) (h2 : k ≠ dst) :
    fsGet fs' k = fsGet fs k := by
  unfold fsRename at h
  cases hg : fsGet fs src with
  | none => rw [hg] at h; cases h
  | some node =>
      rw [hg] at h
      cases h
      rw [fsGet_fsSet_ne _ _ _ _ h2, fsGet_fsDel_ne _ _ _ h1]

theorem append_part_ne_metadata (l : List Char) :
    l ++ '.' :: 'p' :: 'a' :: 'r' :: 't' :: [] ≠ "metadata.json".data := by
  intro h
  have hlen := congrArg List.length h
  simp at hlen
  have hdrop := congrArg (List.drop l.length) h
  rw [List.drop_left] at hdrop
  rw [hlen] at hdrop
  exact absurd hdrop (by decide)

theorem partName_ne_metadata (s : String) : partName s ≠ METADATA_FS := by
  intro h
  exact append_part_ne_metadata (dropExtChars s.data) (congrArg String.data h)

theorem runRenames_preserves (failP : String → Bool) (k : String) :
    ∀ (L : List String) (fs : FSt),
    (∀ f ∈ L, f ≠ k ∧ partName f ≠ k) →
    fsGet (runRenames failP fs L).1 k = fsGet fs k := by
  intro L
  induction L with
  | nil => intro fs _; rfl
  | cons a rest ih =>
      intro fs h
      obtain ⟨ha1, ha2⟩ := h a (List.mem_cons_self a rest)
      have hrest : ∀ f ∈ rest, f ≠ k ∧ partName f ≠ k :=
        fun f hf => h f (List.mem_cons_of_mem a hf)
      by_cases hf : failP a = true
      · simp [runRenames, hf]
      · cases hre : fsRename fs (partName a) a with
        | none => simp [runRenames, hf, hre]
        | some fs1 =>
            have hkeep : fsGet fs1 k = fsGet fs k :=
              fsRename_get_other fs fs1 (partName a) a k hre
                (fun hh => ha2 hh.symm) (fun hh => ha1 hh.symm)
            simp only [runRenames, hf, hre]
            simp only [Bool.false_eq_true, if_false]
            rw [ih fs1 hrest, hkeep]

theorem runRenames_append_err (failP : String → Bool) :
    ∀ (xs : List String) (fs : FSt) (ys : List String),
    (runRenames failP fs xs).2 ≠ none →
    runRenames failP fs (xs ++ ys) = runRenames failP fs xs := by
  intro xs
  induction xs with
  | nil => intro fs ys h; exact absurd rfl h
  | cons a rest ih =>
      intro fs ys h
      by_cases hf : failP a = true
      · simp [runRenames, hf]
      · cases hre : fsRename fs (partName a) a with
        | none => simp [runRenames, hf, hre]
        | some fs1 =>
            simp only [runRenames, hf, Bool.false_eq_true, if_false, hre] at h ⊢
            exact ih fs1 ys h

theorem runRenames_append_ok (failP : String → Bool) :
    ∀ (xs : List String) (fs : FSt) (ys : List String),
    (runRenames failP fs xs).2 = none →
    runRenames failP fs (xs ++ ys)
      = runRenames failP (runRenames failP fs xs).1 ys := by
  intro xs
  induction xs with
  | nil => intro fs ys _; rfl
  | cons a rest ih =>
      intro fs ys h
      by_cases hf : failP a = true
      · simp [runRenames, hf] at h
      · cases hre : fsRename fs (partName a) a with
        | none => simp [runRenames, hf, hre] at h
        | some fs1 =>
            simp only [runRenames, hf, Bool.false_eq_true, if_false, hre] at h ⊢
            exact ih fs1 ys h

theorem runRenames_success_get (failP : String → Bool) :
    ∀ (L : List String) (fs : FSt),
    L.Nodup →
    (∀ a ∈ L, ∀ b ∈ L, a ≠ partName b) →
    (∀ a ∈ L, ∀ b ∈ L, partName a = partName b → a = b) →
    (runRenames failP fs L).2 = none →
    ∀ f ∈ L, fsGet (runRenames failP fs L).1 f = fsGet fs (partName f) := by
  intro L
  induction L with
  | nil => intro fs _ _ _ _ f hf; cases hf
  | cons a rest ih =>
      intro fs hnd hno hinj hsucc f hf
      by_cases hfp : failP a = true
      · simp [runRenames, hfp] at hsucc
      · cases hre : fsRename fs (partName a) a with
        | none => simp [runRenames, hfp, hre] at hsucc
        | some fs1 =>
            have hstep :
                runRenames failP fs (a :: rest) = runRenames failP fs1 rest := by
              simp [runRenames, hfp, hre]
            rw [hstep] at hsucc ⊢
            have hanotin : a ∉ rest := (List.nodup_cons.mp hnd).1
            have hndr : rest.Nodup := (List.nodup_cons.mp hnd).2
            cases hg : fsGet fs (partName a) with
            | none => unfold fsRename at hre; rw [hg] at hre; cases hre
            | some node =>
                have hfs1 : fs1 = fsSet (fsDel fs (partName a)) a node := by
                  unfold fsRename at hre; rw [hg] at hre; cases hre; rfl
                rcases List.mem_cons.mp hf with rfl | hfr
                · have hpres : fsGet (runRenames failP fs1 rest).1 f
                      = fsGet fs1 f := by
                    refine runRenames_preserves failP f rest fs1 ?_
                    intro g hg'
                    exact ⟨fun hh => hanotin (hh ▸ hg'),
                      fun hh => hno f (List.mem_cons_self f rest) g
                        (List.mem_cons_of_mem f hg') hh.symm⟩
                  rw [hpres, hfs1, fsGet_fsSet_self, hg]
                · have hnor : ∀ x ∈ rest, ∀ y ∈ rest, x ≠ partName y :=
                    fun x hx y hy => hno x (List.mem_cons_of_mem a hx) y
                      (List.mem_cons_of_mem a hy)
                  have hinjr : ∀ x ∈ rest, ∀ y ∈ rest,
                      partName x = partName y → x = y :=
                    fun x hx y hy => hinj x (List.mem_cons_of_mem a hx) y
                      (List.mem_cons_of_mem a hy)
                  rw [ih fs1 hndr hnor hinjr hsucc f hfr, hfs1]
                  have hne1 : partName f ≠ a :=
                    fun hh => hno a (List.mem_cons_self a rest) f
                      (List.mem_cons_of_mem a hfr) hh.symm
                  have hne2 : partName f ≠ partName a := by
                    intro hh
                    exact hanotin ((hinj f (List.mem_cons_of_mem a hfr) a
                      (List.mem_cons_self a rest) hh) ▸ hfr)
                  rw [fsGet_fsSet_ne _ _ _ _ hne1, fsGet_fsDel_ne _ _ _ hne2]

theorem mem_commitRenames (staged : List String) (x : String)
    (h : x ∈ commitRenames staged) : x ∈ staged := by
  unfold commitRenames at h
  rcases List.mem_append.mp h with h1 | h2
  · exact List.mem_of_mem_erase h1
  · by_cases hm : METADATA_FS ∈ staged
    · rw [if_pos hm] at h2
      rcases List.mem_singleton.mp h2 with rfl
      exact hm
    · rw [if_neg hm] at h2
      cases h2

/-! ### C1: commit ordering and atomicity -/

/-- C1: `commit()` performs one rename per staged name (the rename list is a
permutation of the staged set) renaming each staged part file to its final
name, with the metadata file's rename placed last; and whenever the rename
sequence fails at any point, the metadata file under its final name — and
hence the stored metadata a later freshness check reads — is unchanged. -/
theorem commit_meta_last_and_atomic (staged : List String)
    (failP : String → Bool) (fs : FSt) (f : String)
    (hnd : staged.Nodup) (hf : f ∈ staged)
    (hno : ∀ a ∈ staged, ∀ b ∈ staged, a ≠ partName b)
    (hinj : ∀ a ∈ staged, ∀ b ∈ staged, partName a = partName b → a = b) :
    (METADATA_FS ∈ staged →
        (commitRenames staged).getLast? = some METADATA_FS)
    ∧ List.Perm (commitRenames staged) staged
    ∧ ((commit failP fs staged).2 = none →
        fsGet (commit failP fs staged).1 f = fsGet fs (partName f))
    ∧ ((commit failP fs staged).2 ≠ none →
        fsGet (commit failP fs staged).1 METADATA_FS = fsGet fs METADATA_FS
          ∧ metadataOnDisk (commit failP fs staged).1 = metadataOnDisk fs) := by
  have hmemE : ∀ g ∈ staged.erase METADATA_FS, g ≠ METADATA_FS ∧ g ∈ staged :=
    fun g hg =>
      ⟨(hnd.mem_erase_iff.mp hg).1, List.mem_of_mem_erase hg⟩
  have hpresE : ∀ fs0 : FSt,
      fsGet (runRenames failP fs0 (staged.erase METADATA_FS)).1 METADATA_FS
        = fsGet fs0 METADATA_FS := by
    intro fs0
    refine runRenames_preserves failP METADATA_FS _ fs0 ?_
    intro g hg
    exact ⟨(hmemE g hg).1, partName_ne_metadata g⟩
  have hMpres : (commit failP fs staged).2 ≠ none →
      fsGet (commit failP fs staged).1 METADATA_FS = fsGet fs METADATA_FS := by
    intro herr
    unfold commit commitRenames at herr ⊢
    by_cases hE : (runRenames failP fs (staged.erase METADATA_FS)).2 = none
    · rw [runRenames_append_ok failP _ _ _ hE] at herr ⊢
      by_cases hm : METADATA_FS ∈ staged
      · rw [if_pos hm] at herr ⊢
        set fs1 := (runRenames failP fs (staged.erase METADATA_FS)).1 with hfs1
        by_cases hfp : failP METADATA_FS = true
        · simp only [runRenames, hfp, if_true]
          exact hpresE fs
        · cases hre : fsRename fs1 (partName METADATA_FS) METADATA_FS with
          | none =>
              simp only [runRenames, hfp, Bool.false_eq_true, if_false, hre]
              exact hpresE fs
          | some fs2 =>
              simp only [runRenames, hfp, Bool.false_eq_true, if_false,
                hre] at herr
              exact absurd rfl herr
      · rw [if_neg hm] at herr
        exact absurd rfl herr
    · rw [runRenames_append_err failP _ _ _ hE]
      exact hpresE fs
  refine ⟨?_, ?_, ?_, fun herr => ⟨hMpres herr, ?_⟩⟩
  · intro hm
    unfold commitRenames
    rw [if_pos hm]
    exact List.getLast?_concat _
  · by_cases hm : METADATA_FS ∈ staged
    · unfold commitRenames
      rw [if_pos hm]
      exact (List.perm_append_singleton _ _).trans
        (List.perm_cons_erase hm).symm
    · unfold commitRenames
      rw [if_neg hm, List.erase_of_not_mem hm, List.append_nil]
  · intro hok
    have hndC : (commitRenames staged).Nodup := by
      unfold commitRenames
      by_cases hm : METADATA_FS ∈ staged
      · rw [if_pos hm]
        refine (hnd.erase METADATA_FS).append (List.nodup_singleton _) ?_
        intro x hx hx'
        rcases List.mem_singleton.mp hx' with rfl
        exact (hmemE _ hx).1 rfl
      · rw [if_neg hm, List.erase_of_not_mem hm, List.append_nil]
        exact hnd
    have hfC : f ∈ commitRenames staged := by
      unfold commitRenames
      by_cases hfm : f = METADATA_FS
      · subst hfm
        rw [if_pos hf]
        exact List.mem_append_right _ (List.mem_singleton_self _)
      · exact List.mem_append_left _ (List.mem_erase_of_ne hfm |>.mpr hf)
    exact runRenames_success_get failP (commitRenames staged) fs hndC
      (fun a ha b hb => hno a (mem_commitRenames staged a ha) b
        (mem_commitRenames staged b hb))
      (fun a ha b hb => hinj a (mem_commitRenames staged a ha) b
        (mem_commitRenames staged b hb))
      hok f hfC
  · unfold metadataOnDisk
    rw [hMpres herr]

/-- C1 witness: the five real cache file names, staged over a directory that
holds their part files and an old metadata file. -/
theorem commit_meta_last_and_atomic_witness :
    (requiredFiles.Nodup ∧ CRATES_FS ∈ requiredFiles
      ∧ (∀ a ∈ requiredFiles, ∀ b ∈ requiredFiles, a ≠ partName b)
      ∧ (∀ a ∈ requiredFiles, ∀ b ∈ requiredFiles,
          partName a = partName b → a = b))
    ∧ ((METADATA_FS ∈ requiredFiles →
          (commitRenames requiredFiles).getLast? = some METADATA_FS)
      ∧ List.Perm (commitRenames requiredFiles) requiredFiles
      ∧ ((commit (fun _ => false) fsWithParts requiredFiles).2 = none →
          fsGet (commit (fun _ => false) fsWithParts requiredFiles).1 CRATES_FS
            = fsGet fsWithParts (partName CRATES_FS))
      ∧ ((commit (fun _ => false) fsWithParts requiredFiles).2 ≠ none →
          fsGet (commit (fun _ => false) fsWithParts requiredFiles).1 METADATA_FS
              = fsGet fsWithParts METADATA_FS
            ∧ metadataOnDisk (commit (fun _ => false) fsWithParts requiredFiles).1
              = metadataOnDisk fsWithParts)) :=
  ⟨⟨by decide, by decide, by decide, by decide⟩,
    commit_meta_last_and_atomic requiredFiles (fun _ => false) fsWithParts
      CRATES_FS (by decide) (by decide) (by decide) (by decide)⟩

/-! ### C7: early termination of the entry loop -/

/-- C7 counterexample: in a stream holding the five required entries and
then two irrelevant ones, the loop does not stop at the moment the fifth
required file is staged: the first irrelevant entry is still consumed (it is
the one on which the stop condition is checked), and only the entries after
it come back unread. -/
theorem early_termination_consumes_triggering_entry_cex :
    (processEntries none loopStart streamSevenEntries).2.2
        = [Res.ok entryJunk2]
    ∧ (processEntries none loopStart streamSevenEntries).2.2
        ≠ [Res.ok entryJunk1, Res.ok entryJunk2] := by
  decide

/-- C7 amended: once every required file name has been staged, the first
entry matching none of the five handled suffixes stops the loop: that entry
is the only further one consumed, the state is returned unchanged, and the
whole remaining stream after it — of any content and length — is returned
unread. -/
theorem early_termination_after_staging (etag : Option String) (ls : LoopSt)
    (entry : Entry) (rest : List (Res Entry))
    (hstaged : subsetOf requiredFiles ls.staged = true)
    (hirr : routedEntry entry = false) :
    processEntries etag ls (.ok entry :: rest) = (ls, none, rest) := by
  unfold routedEntry at hirr
  rw [Bool.or_eq_false_iff, Bool.or_eq_false_iff, Bool.or_eq_false_iff,
    Bool.or_eq_false_iff] at hirr
  obtain ⟨⟨⟨⟨h1, h2⟩, h3⟩, h4⟩, h5⟩ := hirr
  simp only [processEntries, h1, h2, h3, h4, h5, Bool.false_eq_true,
    if_false, hstaged, if_true]

/-- C7 amended witness: with all five names staged, an irrelevant entry
stops the loop and the two entries after it are never consumed. -/
theorem early_termination_after_staging_witness :
    (subsetOf requiredFiles loopStagedAll.staged = true
      ∧ routedEntry entryJunk1 = false)
    ∧ processEntries none loopStagedAll
        (.ok entryJunk1 :: [.ok entryJunk2, .err .other])
      = (loopStagedAll, none, [.ok entryJunk2, .err .other]) :=
  ⟨⟨by decide, by decide⟩,
    early_termination_after_staging none loopStagedAll entryJunk1
      [.ok entryJunk2, .err .other] (by decide) (by decide)⟩

/-! ### Trace shape of the entry loop -/

theorem processEntries_trace (etag : Option String) :
    ∀ (items : List (Res Entry)) (ls : LoopSt),
    ∃ t, (processEntries etag ls items).1.trace = ls.trace ++ t
      ∧ t.all evIsWrotePart = true := by
  intro items
  induction items with
  | nil =>
      intro ls
      exact ⟨[], by simp [processEntries], rfl⟩
  | cons item rest ih =>
      intro ls
      cases item with
      | err e =>
          obtain ⟨t, ht, ha⟩ := ih ls
          exact ⟨t, by simpa [processEntries] using ht, ha⟩
      | ok entry =>
          by_cases h1 : pathEndsWith entry.pathBytes "crate_owners.csv" = true
          · cases ho : entry.asOwners with
            | err e => exact ⟨[], by simp [processEntries, h1, ho], rfl⟩
            | ok owners =>
                obtain ⟨t, ht, ha⟩ := ih (stagePart
                  { ls with c := { ls.c with
                      crate_owners :=
                        some (buildMultiMap (fun o => o.crate_id) owners) } }
                  CRATE_OWNERS_FS
                  (.ownersFile (buildMultiMap (fun o => o.crate_id) owners)))
                refine ⟨Ev.wrotePart (partName CRATE_OWNERS_FS) :: t, ?_, ?_⟩
                · simp only [processEntries, h1, if_true, ho]
                  rw [ht]
                  simp [stagePart]
                · simpa [evIsWrotePart] using ha
          · by_cases h2 : pathEndsWith entry.pathBytes "crates.csv" = true
            · cases ho : entry.asCrates with
              | err e => exact ⟨[], by simp [processEntries, h1, h2, ho], rfl⟩
              | ok crates =>
                  obtain ⟨t, ht, ha⟩ := ih (stagePart
                    { ls with c := { ls.c with
                        crates := some (buildMap (fun cr => cr.name) crates) } }
                    CRATES_FS
                    (.cratesFile (buildMap (fun cr => cr.name) crates)))
                  refine ⟨Ev.wrotePart (partName CRATES_FS) :: t, ?_, ?_⟩
                  · simp only [processEntries, h1, h2, Bool.false_eq_true,
                      if_false, if_true, ho]
                    rw [ht]
                    simp [stagePart]
                  · simpa [evIsWrotePart] using ha
            · by_cases h3 : pathEndsWith entry.pathBytes "users.csv" = true
              · cases ho : entry.asUsers with
                | err e =>
                    exact ⟨[], by simp [processEntries, h1, h2, h3, ho], rfl⟩
                | ok users =>
                    obtain ⟨t, ht, ha⟩ := ih (stagePart
                      { ls with c := { ls.c with
                          users := some (buildMap (fun u => u.id) users) } }
                      USERS_FS
                      (.usersFile (buildMap (fun u => u.id) users)))
                    refine ⟨Ev.wrotePart (partName USERS_FS) :: t, ?_, ?_⟩
                    · simp only [processEntries, h1, h2, h3,
                        Bool.false_eq_true, if_false, if_true, ho]
                      rw [ht]
                      simp [stagePart]
                    · simpa [evIsWrotePart] using ha
              · by_cases h4 : pathEndsWith entry.pathBytes "teams.csv" = true
                · cases ho : entry.asTeams with
                  | err e =>
                      exact ⟨[], by simp [processEntries, h1, h2, h3, h4, ho],
                        rfl⟩
                  | ok teams =>
                      obtain ⟨t, ht, ha⟩ := ih (stagePart
                        { ls with c := { ls.c with
                            teams := some (buildMap (fun t => t.id) teams) } }
                        TEAMS_FS
                        (.teamsFile (buildMap (fun t => t.id) teams)))
                      refine ⟨Ev.wrotePart (partName TEAMS_FS) :: t, ?_, ?_⟩
                      · simp only [processEntries, h1, h2, h3, h4,
                          Bool.false_eq_true, if_false, if_true, ho]
                        rw [ht]
                        simp [stagePart]
                      · simpa [evIsWrotePart] using ha
                · by_cases h5 :
                      pathEndsWith entry.pathBytes "metadata.json" = true
                  · cases ho : entry.asMeta with
                    | err e =>
                        exact ⟨[],
                          by simp [processEntries, h1, h2, h3, h4, h5, ho],
                          rfl⟩
                    | ok meta =>
                        obtain ⟨t, ht, ha⟩ := ih (stagePart
                          { ls with c :=
                              { ls.c with
                                  metadata := some
                                    (⟨meta.timestamp, etag⟩ :
                                      MetadataStored) } }
                          METADATA_FS
                          (.metaFile (⟨meta.timestamp, etag⟩ : MetadataStored)))
                        refine ⟨Ev.wrotePart (partName METADATA_FS) :: t,
                          ?_, ?_⟩
                        · simp only [processEntries, h1, h2, h3, h4, h5,
                            Bool.false_eq_true, if_false, if_true, ho]
                          rw [ht]
                          simp [stagePart]
                        · simpa [evIsWrotePart] using ha
                  · by_cases h6 : subsetOf requiredFiles ls.staged = true
                    · exact ⟨[],
                        by simp [processEntries, h1, h2, h3, h4, h5, h6], rfl⟩
                    · obtain ⟨t, ht, ha⟩ := ih ls
                      exact ⟨t,
                        by simpa [processEntries, h1, h2, h3, h4, h5, h6]
                          using ht, ha⟩

theorem downloadFinish_res_ok (remembered etagv : Option String)
    (failP : String → Bool) (dir' : DirState)
    (p : LoopSt × Option IoErr × List (Res Entry))
    (h : loadResIsOk (downloadFinish remembered etagv failP dir' p).res
        = true) :
    (downloadFinish remembered etagv failP dir' p).res
      = .ok (if remembered = etagv then .Stale else .Expired) := by
  rcases p with ⟨ls1, perr, rem⟩
  cases perr with
  | some e => simp [downloadFinish, loadResIsOk] at h
  | none =>
      rcases hcm : commit failP ls1.fs ls1.staged with ⟨fs2, cerr⟩
      cases cerr with
      | some e => simp [downloadFinish, hcm, loadResIsOk] at h
      | none => simp [downloadFinish, hcm]

theorem downloadFinish_trace (remembered etagv : Option String)
    (failP : String → Bool) (dir' : DirState)
    (p : LoopSt × Option IoErr × List (Res Entry)) :
    (downloadFinish remembered etagv failP dir' p).trace = p.1.trace := by
  rcases p with ⟨ls1, perr, rem⟩
  cases perr with
  | some e => rfl
  | none =>
      rcases hcm : commit failP ls1.fs ls1.staged with ⟨fs2, cerr⟩
      cases cerr <;> simp [downloadFinish, hcm]

/-! ### C6: `304` short-circuit and the validator-token classification -/

/-- C6: when the server replies `304` the download returns `Fresh` with the
file system, directory state and trace untouched apart from the single GET;
otherwise, whenever the download completes successfully (the commit
included), the returned state is `Stale` exactly when the response's
validator equals the remembered one and `Expired` when it differs. -/
theorem download_fresh_on_304_and_validator (c : CratesCache) (fs : FSt)
    (dir : DirState) (env : DlEnv) (now maxAge : Nat)
    (mm : Option MetadataStored) (c1 : CratesCache) (resp : Response)
    (hm : c.load_metadata fs = .ok (mm, c1))
    (hc : env.callResult = .ok resp) :
    (resp.status = 304 →
        (c.download fs dir env now maxAge).res = .ok .Fresh
        ∧ (c.download fs dir env now maxAge).fs = fs
        ∧ (c.download fs dir env now maxAge).dir = dir
        ∧ (c.download fs dir env now maxAge).trace
            = [.httpGet (condHeader mm now maxAge)])
    ∧ (resp.status ≠ 304 →
        loadResIsOk (c.download fs dir env now maxAge).res = true →
        (c.download fs dir env now maxAge).res
          = .ok (if rememberedOf mm = resp.etag
              then .Stale else .Expired)) := by
  constructor
  · intro h304
    simp [CratesCache.download, hm, hc, h304]
  · intro h304 hok
    simp only [CratesCache.download, hm, hc] at hok ⊢
    rw [if_neg h304] at hok ⊢
    by_cases hpd : env.projectDirsAvailable = false
    · rw [if_pos hpd] at hok
      simp [loadResIsOk] at hok
    · rw [if_neg hpd] at hok ⊢
      cases hcu : cacheUpdaterNew dir with
      | error e =>
          simp only [hcu] at hok
          simp [loadResIsOk] at hok
      | ok dir' =>
          simp only [hcu] at hok ⊢
          rw [downloadFinish_res_ok _ _ _ _ _ hok]
          cases mm <;> rfl

/-- C6 witness: a `304` reply on a cache with no stored metadata. -/
theorem download_fresh_on_304_and_validator_witness :
    (emptyCache.load_metadata [] = .ok (none, emptyCache)
      ∧ env304.callResult = .ok resp304)
    ∧ ((resp304.status = 304 →
          (emptyCache.download [] .isDir env304 0 10).res = .ok .Fresh
          ∧ (emptyCache.download [] .isDir env304 0 10).fs = []
          ∧ (emptyCache.download [] .isDir env304 0 10).dir = .isDir
          ∧ (emptyCache.download [] .isDir env304 0 10).trace
              = [.httpGet (condHeader none 0 10)])
      ∧ (resp304.status ≠ 304 →
          loadResIsOk (emptyCache.download [] .isDir env304 0 10).res = true →
          (emptyCache.download [] .isDir env304 0 10).res
            = .ok (if rememberedOf none = resp304.etag
                then .Stale else .Expired))) :=
  ⟨⟨rfl, rfl⟩,
    download_fresh_on_304_and_validator emptyCache [] .isDir env304 0 10
      none emptyCache resp304 rfl rfl⟩

/-! ### C9: the GET precedes the directory validation -/

/-- C9 counterexample: a download whose server replies `304` issues the GET
and returns with no directory validation/creation at all — in particular,
the directory is not validated as a first step before the GET. -/
theorem download_get_before_dir_validation_cex :
    (emptyCache.download [] .isDir env304 0 10).trace = [Ev.httpGet none]
    ∧ Ev.ensureDir ∉ [Ev.httpGet (none : Option String)] := by
  decide

/-- C9 amended: `download` resolves and validates/creates the cache
directory only after the GET's response has arrived and is not `304`, and
before any file is staged; the validation fails fast — `NotFound` when the
platform cache path cannot be resolved, `AlreadyExists` when the path
exists but is not a directory — leaving the file system and the offending
entry untouched. -/
theorem download_dir_validation_after_get (c : CratesCache) (fs : FSt)
    (dir : DirState) (env : DlEnv) (now maxAge : Nat)
    (mm : Option MetadataStored) (c1 : CratesCache) (resp : Response)
    (hm : c.load_metadata fs = .ok (mm, c1))
    (hc : env.callResult = .ok resp)
    (h304 : resp.status ≠ 304) :
    (env.projectDirsAvailable = false →
        (c.download fs dir env now maxAge).res = .err .notFound
        ∧ (c.download fs dir env now maxAge).fs = fs
        ∧ (c.download fs dir env now maxAge).dir = dir)
    ∧ (env.projectDirsAvailable = true → dir = .notDir →
        (c.download fs dir env now maxAge).res = .err .alreadyExists
        ∧ (c.download fs dir env now maxAge).fs = fs
        ∧ (c.download fs dir env now maxAge).dir = .notDir)
    ∧ (env.projectDirsAvailable = true → dir ≠ .notDir →
        (c.download fs dir env now maxAge).trace.take 2
            = [.httpGet (condHeader mm now maxAge), .ensureDir]
        ∧ ((c.download fs dir env now maxAge).trace.drop 2).all
            evIsWrotePart = true) := by
  refine ⟨?_, ?_, ?_⟩
  · intro hpd
    simp [CratesCache.download, hm, hc, h304, hpd]
  · intro hpd hdir
    subst hdir
    simp [CratesCache.download, hm, hc, h304, hpd, cacheUpdaterNew]
  · intro hpd hdir
    simp only [CratesCache.download, hm, hc]
    rw [if_neg h304]
    rw [if_neg (by simp [hpd])]
    have hcu : cacheUpdaterNew dir = .ok .isDir := by
      cases dir with
      | absent => rfl
      | isDir => rfl
      | notDir => exact absurd rfl hdir
    rw [hcu]
    dsimp only
    rw [downloadFinish_trace]
    obtain ⟨t, ht, ha⟩ := processEntries_trace resp.etag resp.entries
      { c := c1, fs := fs, staged := [],
        trace := [Ev.httpGet (condHeader mm now maxAge)] ++ [Ev.ensureDir] }
    rw [ht]
    constructor
    · rfl
    · simpa using ha

/-- C9 amended witness: a `200` reply over an existing directory: the trace
begins with the GET followed by the directory validation. -/
theorem download_dir_validation_after_get_witness :
    (emptyCache.load_metadata [] = .ok (none, emptyCache)
      ∧ env200.callResult = .ok resp200 ∧ resp200.status ≠ 304
      ∧ env200.projectDirsAvailable = true ∧ DirState.isDir ≠ DirState.notDir)
    ∧ ((emptyCache.download [] .isDir env200 0 10).trace.take 2
          = [.httpGet (condHeader none 0 10), .ensureDir]
        ∧ ((emptyCache.download [] .isDir env200 0 10).trace.drop 2).all
            evIsWrotePart = true) :=
  ⟨⟨rfl, rfl, by decide, rfl, by decide⟩,
    (download_dir_validation_after_get emptyCache [] .isDir env200 0 10 none
      emptyCache resp200 rfl rfl (by decide)).2.2 rfl (by decide)⟩

/-! ### C8: a non-`Fresh` verdict poisons the cache for the rest of the run -/

/-- C8: when `expire` returns `Expired` or `Unknown` it detaches the
directory handle in-process, and on the resulting state every
`load_cached`-based access — `load_metadata`, `age`, `publisher_users`,
`publisher_teams`, and `expire` itself — short-circuits to a not-found
result (`none` / `Unknown`) against any directory contents whatsoever, and
returns the state unchanged, so the poisoning persists. -/
theorem expire_nonfresh_poisons_cache (c : CratesCache) (fs fs2 : FSt)
    (now maxAge now2 maxAge2 : Nat) (name : String) (s : CacheState)
    (c' : CratesCache)
    (h : c.expire fs now maxAge = .ok (s, c')) (hs : s ≠ .Fresh) :
    c'.cache_dir = none
    ∧ c'.load_metadata fs2 = .ok (none, c')
    ∧ c'.age fs2 now2 = .ok (none, c')
    ∧ c'.publisher_users fs2 name = .ok (none, c')
    ∧ c'.publisher_teams fs2 name = .ok (none, c')
    ∧ c'.expire fs2 now2 maxAge2 = .ok (.Unknown, c') := by
  have hdir : c'.cache_dir = none := by
    simp only [CratesCache.expire] at h
    cases hv : c.validate fs now maxAge with
    | panicked => rw [hv] at h; exact absurd h (by simp)
    | ok p =>
        obtain ⟨mv, cv⟩ := p
        rw [hv] at h
        cases mv with
        | none =>
            simp only [POr.ok.injEq, Prod.mk.injEq] at h
            rw [← h.2]
        | some b =>
            cases b with
            | true =>
                simp only [POr.ok.injEq, Prod.mk.injEq] at h
                exact absurd h.1.symm hs
            | false =>
                simp only [POr.ok.injEq, Prod.mk.injEq] at h
                rw [← h.2]
  obtain ⟨cd, m1, m2, m3, m4, m5, m6⟩ := c'
  simp only [CratesCache.cache_dir] at hdir
  subst hdir
  refine ⟨rfl, ?_, ?_, ?_, ?_, ?_⟩
  · simp [CratesCache.load_metadata]
  · simp [CratesCache.age, CratesCache.load_metadata]
  · simp [CratesCache.publisher_users, CratesCache.load_crates]
  · simp [CratesCache.publisher_teams, CratesCache.load_crates]
  · simp [CratesCache.expire, CratesCache.validate, CratesCache.load_metadata]

/-- C8 witness: a cache whose metadata file is missing expires to `Unknown`
and is poisoned; afterwards even a directory holding fresh metadata is
ignored by every access. -/
theorem expire_nonfresh_poisons_cache_witness :
    (cacheKnownNoEdges.expire [] 0 10 = .ok (.Unknown, poisonedCache)
      ∧ CacheState.Unknown ≠ CacheState.Fresh)
    ∧ (poisonedCache.cache_dir = none
      ∧ poisonedCache.load_metadata fsFreshMeta = .ok (none, poisonedCache)
      ∧ poisonedCache.age fsFreshMeta 7 = .ok (none, poisonedCache)
      ∧ poisonedCache.publisher_users fsFreshMeta "a"
          = .ok (none, poisonedCache)
      ∧ poisonedCache.publisher_teams fsFreshMeta "a"
          = .ok (none, poisonedCache)
      ∧ poisonedCache.expire fsFreshMeta 7 9 = .ok (.Unknown, poisonedCache)) :=
  ⟨⟨by decide, by decide⟩,
    expire_nonfresh_poisons_cache cacheKnownNoEdges [] fsFreshMeta 0 10 7 9
      "a" .Unknown poisonedCache (by decide) (by decide)⟩

end SupplyChain
